import Mathlib

/-!
# Serial-to-broker telemetry bridge (chapter2/iot/rasp_temp.go)

A shallow embedding of `main` and `computeTemperature` of `rasp_temp.go`, together with the
parts of the Go standard library the program relies on (`strings.TrimSpace`, `fmt.Sscanf` with the
format `%d` and a `*uint32` operand, `strconv.ParseUint`, `log.Fatalf`, `defer`).

Strings are lists of runes (valid UTF-8 text); machine integers are naturals with explicit
wrap-around where the library code can overflow.
-/

namespace Bridge

/-! ## Go library: `unicode.IsSpace`, `strings.TrimSpace` -/

/-- Function `unicode.IsSpace`: the Latin-1 cases `\t \n \v \f \r`, space, U+0085, U+00A0 and the
`White_Space` range table. `fmt.isSpace` uses the same table. -/
def isSpace (r : Char) : Bool :=
  let n := r.toNat
  (0x09 ≤ n && n ≤ 0x0d) || n == 0x20 || n == 0x85 || n == 0xA0 || n == 0x1680 ||
    (0x2000 ≤ n && n ≤ 0x200a) || n == 0x2028 || n == 0x2029 || n == 0x202f ||
    n == 0x205f || n == 0x3000

/-- Function `strings.TrimSpace`: the string without its leading and trailing white space. -/
def TrimSpace (s : List Char) : List Char :=
  ((s.dropWhile isSpace).reverse.dropWhile isSpace).reverse

/-! ## Go library: `fmt` scanning (`scan.go`) -/

/-- The constant `hugeWid = 1 << 30` of `fmt/scan.go`: the rune limit of one scan. -/
def hugeWid : Nat := 2 ^ 30

/-- The string `decimalDigits` of `fmt/scan.go`. -/
def decimalDigits : List Char := ['0', '1', '2', '3', '4', '5', '6', '7', '8', '9']

/-- Errors a scan with `%d` into a `*uint32` can end with. -/
inductive ScanError where
  /-- Out of input (`io.EOF`). -/
  | eof
  /-- Error text "unexpected newline". -/
  | unexpectedNewline
  /-- Error text "expected integer". -/
  | expectedInteger
  /-- The `strconv.ParseUint` syntax error on the token. -/
  | syntaxError (tok : List Char)
  /-- The `strconv.ParseUint` range error on the token (value out of 64 bits). -/
  | rangeError (tok : List Char)
  /-- Error text "unsigned integer overflow on token". -/
  | overflow (tok : List Char)
  deriving DecidableEq, Repr

deriving instance DecidableEq for Except

/-- Scanner state `ss`: the unread input, the number of runes consumed so far. -/
structure ss where
  /-- The unread runes of the reader `rs`. -/
  rs : List Char
  /-- Runes consumed so far. -/
  count : Nat
  deriving DecidableEq, Repr

/-- Method `ss.getRune`: the next rune and the advanced state, or `none` at end of input or when the
count has reached `argLimit` (which is `hugeWid` for a verb without a width). -/
def ss.getRune (s : ss) : Option (Char × ss) :=
  if hugeWid ≤ s.count then none
  else match s.rs with
    | [] => none
    | r :: rest => some (r, { rs := rest, count := s.count + 1 })

/-- Method `ss.peek ok`: whether the next rune is one of `ok`; the state is left as it was. -/
def ss.peek (s : ss) (ok : List Char) : Bool :=
  match s.getRune with
  | none => false
  | some (r, _) => decide (r ∈ ok)

/-- The loop of `ss.SkipSpace` over the unread input, with newline not counting as space
(`nlIsSpace = false`, as `Fscanf` sets it). -/
def skipSpaceLoop : List Char → Nat → Except ScanError ss
  | [], count => .ok { rs := [], count := count }
  | r :: rest, count =>
    if hugeWid ≤ count then .ok { rs := r :: rest, count := count }
    else if r = '\r' ∧ ss.peek { rs := rest, count := count + 1 } ['\n'] = true then
      skipSpaceLoop rest (count + 1)
    else if r = '\n' then .error .unexpectedNewline
    else if !isSpace r then .ok { rs := r :: rest, count := count }
    else skipSpaceLoop rest (count + 1)

/-- Method `ss.SkipSpace`. -/
def ss.SkipSpace (s : ss) : Except ScanError ss := skipSpaceLoop s.rs s.count

/-- Method `ss.notEOF`: fails with `io.EOF` when no rune can be read. -/
def ss.notEOF (s : ss) : Except ScanError Unit :=
  match s.getRune with
  | none => .error .eof
  | some _ => .ok ()

/-- The loop `for s.accept(digits) {}` of `scanNumber`: the runes accepted into the token
buffer, in order. -/
def acceptLoop (digits : List Char) : List Char → Nat → List Char
  | [], _ => []
  | r :: rest, count =>
    if hugeWid ≤ count then []
    else if r ∈ digits then r :: acceptLoop digits rest (count + 1)
    else []

/-- Method `ss.scanNumber digits false`: the token of digits at the head of the input; it is an error
when there is none. -/
def ss.scanNumber (s : ss) (digits : List Char) : Except ScanError (List Char) := do
  s.notEOF
  match acceptLoop digits s.rs s.count with
  | [] => .error .expectedInteger
  | tok => .ok tok

/-- The digit loop of `strconv.ParseUint(s, 10, 64)` from the accumulator `n`; `s0` is the whole
token, kept for the error value. Arithmetic is that of `uint64`. -/
def parseUintLoop (s0 : List Char) : List Char → Nat → Except ScanError Nat
  | [], n => .ok n
  | c :: cs, n =>
    if '0'.toNat ≤ c.toNat ∧ c.toNat ≤ '9'.toNat then
      let d := c.toNat - '0'.toNat
      let cutoff := (2 ^ 64 - 1) / 10 + 1
      let maxVal := 2 ^ 64 - 1
      if cutoff ≤ n then .error (.rangeError s0)
      else
        let n10 := n * 10 % 2 ^ 64
        let n1 := (n10 + d) % 2 ^ 64
        if n1 < n10 ∨ maxVal < n1 then .error (.rangeError s0)
        else parseUintLoop s0 cs n1
    else .error (.syntaxError s0)

/-- Function `strconv.ParseUint(s, 10, 64)`. -/
def ParseUint (s : List Char) : Except ScanError Nat :=
  match s with
  | [] => .error (.syntaxError [])
  | _ => parseUintLoop s s 0

/-- Method `ss.scanUint` for the verb `d`: skip space, read the digit token, convert it, and check that the
value fits `bitSize` bits. -/
def ss.scanUint (s : ss) (bitSize : Nat) : Except ScanError Nat := do
  let s1 ← s.SkipSpace
  s1.notEOF
  let tok ← s1.scanNumber decimalDigits
  let i ← ParseUint tok
  let x := (i * 2 ^ (64 - bitSize) % 2 ^ 64) / 2 ^ (64 - bitSize)
  if x ≠ i then .error (.overflow tok) else .ok i

/-- Function `fmt.Sscanf(str, "%d", &v)` with `v` a `uint32`: the value stored in `v`, or the error.
The format is exhausted after the verb; input left after the token is not looked at. -/
def Sscanf (str : List Char) : Except ScanError Nat := do
  let s0 : ss := { rs := str, count := 0 }
  let s1 ← s0.SkipSpace
  let i ← s1.scanUint 32
  .ok (i % 2 ^ 32)

/-- The decimal text of an unsigned value, as `%d` and `println` render it. -/
def decimalText (n : Nat) : List Char := Nat.toDigits 10 n

/-- The numeric value of a run of decimal digits, most significant digit first. -/
def decimalValue (ds : List Char) : Nat :=
  ds.foldl (fun n c => n * 10 + (c.toNat - '0'.toNat)) 0

/-! ## `computeTemperature` -/

/-- The `float64` operations `computeTemperature` and `main` use. The program is embedded over
any carrier `F` with these operations, so that it can be read over an exact model of the
arithmetic as well as run. -/
structure Float64Ops (F : Type) where
  /-- Conversion of an (exact) constant expression to `float64`. -/
  lit : ℚ → F
  /-- The conversion `float64(adcValue)` of a `uint32`. -/
  ofUint32 : Nat → F
  /-- Addition. -/
  add : F → F → F
  /-- Subtraction. -/
  sub : F → F → F
  /-- Multiplication. -/
  mul : F → F → F
  /-- Division. -/
  div : F → F → F
  /-- The function `math.Log`. -/
  log : F → F
  /-- The value `math.NaN()`. -/
  nan : F
  /-- The comparison `==`. -/
  eq : F → F → Bool
  /-- The rendering of the verb `%.2f`. -/
  fmt2 : F → String

/-- Constant `VCC`: tension (V). -/
def VCC : ℚ := 5.0
/-- Constant `R`: fixed resistor (Ohms). -/
def R : ℚ := 1000.0
/-- Constant `RT0`: thermistor resistance at `T0` (Ohms). -/
def RT0 : ℚ := 1000.0
/-- Constant `T0`: reference temperature (Kelvin). -/
def T0 : ℚ := 25.0 + 273.15
/-- Constant `B`: beta coefficient (K). -/
def B : ℚ := 3977.0
/-- Constant `ADCMax`: max ADC value (16 bits). -/
def ADCMax : ℚ := 65535.0

section Compute
variable {F : Type} (o : Float64Ops F)

/-- Local `VRT` of `computeTemperature`: tension on the thermistor,
`VCC * float64(adcValue) / ADCMax`. -/
def VRT (adcValue : Nat) : F :=
  o.div (o.mul (o.lit VCC) (o.ofUint32 adcValue)) (o.lit ADCMax)

/-- Local `RT` of `computeTemperature`: thermistor resistance, `VRT * R / (VCC - VRT)`. -/
def RT (adcValue : Nat) : F :=
  o.div (o.mul (VRT o adcValue) (o.lit R)) (o.sub (o.lit VCC) (VRT o adcValue))

/-- Local `ln` of `computeTemperature`: `math.Log(RT / RT0)`. -/
def ln (adcValue : Nat) : F :=
  o.log (o.div (RT o adcValue) (o.lit RT0))

/-- Local `TX` of `computeTemperature`: Kelvin temperature, `1 / ((ln / B) + (1 / T0))`; the
operand `1 / T0` is a constant expression. -/
def TX (adcValue : Nat) : F :=
  o.div (o.lit 1) (o.add (o.div (ln o adcValue) (o.lit B)) (o.lit (1 / T0)))

/-- Function `computeTemperature`: the Celsius temperature of an ADC value, `NaN` when the
tension on the thermistor is zero. -/
def computeTemperature (adcValue : Nat) : F :=
  if o.eq (VRT o adcValue) (o.lit 0) then o.nan
  else o.sub (TX o adcValue) (o.lit 273.15)

/-- The expression `tempCelsius*9/5 + 32` of `main`. -/
def tempFahrenheit (tempCelsius : F) : F :=
  o.add (o.div (o.mul tempCelsius (o.lit 9)) (o.lit 5)) (o.lit 32)

/-- The message of `main`:
`fmt.Sprintf("ADC: %d, Temp: %.2f°C / %.2f°F", adcValue, tempCelsius, tempFahrenheit)`. -/
def Sprintf (adcValue : Nat) (tempCelsius tempFahrenheit : F) : String :=
  "ADC: " ++ toString adcValue ++ ", Temp: " ++ o.fmt2 tempCelsius ++ "°C / " ++
    o.fmt2 tempFahrenheit ++ "°F"

/-- The text `main` builds for the ADC value `adcValue` (lines 72 to 77). -/
def text (adcValue : Nat) : String :=
  Sprintf o adcValue (computeTemperature o adcValue)
    (tempFahrenheit o (computeTemperature o adcValue))

end Compute

/-! ## The loop of `main` -/

/-- What the program does to the outside world. -/
inductive Event where
  /-- Call `client.Connect()` and wait for its token. -/
  | connect (broker clientID : String)
  /-- Call `serial.OpenPort` on the named device. -/
  | openPort (name : String) (baud : Nat)
  /-- Call `log.Fatalf`: the message is logged and the process exits with status 1. -/
  | fatal (msg : String)
  /-- Call `client.Disconnect(quiesce)`. -/
  | disconnect (quiesce : Nat)
  /-- Call `s.Close()` on the serial port. -/
  | closePort
  /-- Log "Serial port read error: %v". -/
  | logReadError (err : String)
  /-- Call `time.Sleep(time.Second)`. -/
  | sleepSecond
  /-- Log "Empty line received from serial port". -/
  | logEmptyLine
  /-- Log "Error parsing ADC value '%s': %v". -/
  | logParseError (line : List Char) (err : ScanError)
  /-- Call `client.Publish(topic, qos, retained, payload)` and wait for its token. -/
  | publish (topic : String) (qos : Nat) (retained : Bool) (payload : String)
  /-- Print to standard output. -/
  | stdout (s : String)
  deriving DecidableEq, Repr

/-- What the outside world does in one iteration of the loop: the result of
`reader.ReadString` (an error, or the line with its terminator) and the error, if any, that the
token of `client.Publish` completes with. -/
structure Turn where
  /-- Result of `reader.ReadString`. -/
  read : Except String (List Char)
  /-- Error of the publish token, `none` when the publish succeeds. -/
  publishError : Option String
  deriving DecidableEq

/-- Outcome of the decode step of `main` (lines 55 to 70). -/
inductive Decoded where
  /-- The trimmed line is empty. -/
  | emptyLine
  /-- The scan of the trimmed line failed. -/
  | parseError (line : List Char) (err : ScanError)
  /-- The scan stored `adcValue`. -/
  | sample (adcValue : Nat)
  deriving DecidableEq, Repr

/-- The decode step of `main` (lines 55 to 70): trim, test for the empty line, scan. -/
def decode (line : List Char) : Decoded :=
  let line := TrimSpace line
  if line = [] then .emptyLine
  else match Sscanf line with
    | .error err => .parseError line err
    | .ok adcValue => .sample adcValue

/-- The fixed topic of `main`. -/
def topic : String := "topic/temperature"

/-- One iteration of the loop of `main` (lines 46 to 82): the events it produces. The result of
`token.Wait()` is not looked at. -/
def iteration {F : Type} (o : Float64Ops F) (t : Turn) : List Event :=
  match t.read with
  | .error err => [.logReadError err, .sleepSecond]
  | .ok line =>
    match decode line with
    | .emptyLine => [.logEmptyLine]
    | .parseError l err => [.logParseError l err]
    | .sample adcValue =>
      [.publish topic 0 false (text o adcValue),
       .stdout ("Published to MQTT: " ++ text o adcValue ++ "\n")]

/-- The loop of `main` run over a finite sequence of turns. -/
def loop {F : Type} (o : Float64Ops F) : List Turn → List Event
  | [] => []
  | t :: ts => iteration o t ++ loop o ts

/-- The samples of a sequence of turns: the values of the lines read without error that decode
to a sample, in input order. -/
def samples : List Turn → List Nat
  | [] => []
  | t :: ts =>
    match t.read with
    | .error _ => samples ts
    | .ok line =>
      match decode line with
      | .sample adcValue => adcValue :: samples ts
      | _ => samples ts

/-- The payloads published in a trace, in order. -/
def published : List Event → List String
  | [] => []
  | .publish _ _ _ payload :: es => payload :: published es
  | _ :: es => published es

/-! ## Start-up of `main` -/

/-- State of the process: the trace so far, the deferred calls not yet run (most recent first),
and the exit status once the process has exited. -/
structure Proc where
  /-- Events so far. -/
  trace : List Event
  /-- Deferred calls of `main`, most recent first. They run when `main` returns. -/
  deferred : List Event
  /-- Exit status, `none` while the process runs. -/
  exited : Option Nat
  deriving DecidableEq

/-- Function `log.Fatalf`: print the message, then `os.Exit(1)`. The program terminates immediately;
deferred functions are not run. -/
def Fatalf (p : Proc) (msg : String) : Proc :=
  { p with trace := p.trace ++ [.fatal msg], exited := some 1 }

/-- Function `main` of `rasp_temp.go`, run against an environment: `connectError` is the error
of the connect token, `args` is `os.Args`, `openError` the error of `serial.OpenPort`, and
`turns` the finite part of the loop that is observed. -/
def main {F : Type} (o : Float64Ops F) (connectError : Option String) (args : List String)
    (openError : Option String) (turns : List Turn) : Proc :=
  let p0 : Proc := { trace := [.connect "tcp://localhost:1883" "go_mqtt_publisher"],
                     deferred := [], exited := none }
  match connectError with
  | some e => Fatalf p0 ("Erro ao conectar ao servidor MQTT: " ++ e)
  | none =>
    let p1 : Proc := { p0 with deferred := .disconnect 250 :: p0.deferred }
    let serialPort := if 1 < args.length then args.getD 1 "" else "/dev/ttyACM0"
    let p2 : Proc := { p1 with trace := p1.trace ++ [.openPort serialPort 9600] }
    match openError with
    | some e => Fatalf p2 ("Serial port fail " ++ serialPort ++ ": " ++ e)
    | none =>
      let p3 : Proc := { p2 with deferred := .closePort :: p2.deferred }
      { p3 with trace := p3.trace ++ loop o turns }

/-! ## Exact reading of the `float64` arithmetic -/

/-- A `float64` value read over exact real arithmetic: NaN, an infinity with its sign, or a real
number. Rounding and the sign of zero are not modelled (a zero is `+0`). -/
inductive XReal where
  /-- Not a number. -/
  | nan
  /-- Infinity, negative when `neg` is true. -/
  | inf (neg : Bool)
  /-- A finite value. -/
  | fin (x : ℝ)

namespace XReal

/-- IEEE 754 addition on exact values. -/
noncomputable def add : XReal → XReal → XReal
  | nan, _ => nan
  | _, nan => nan
  | inf a, inf b => if a = b then inf a else nan
  | inf a, fin _ => inf a
  | fin _, inf b => inf b
  | fin x, fin y => fin (x + y)

/-- Negation. -/
noncomputable def neg : XReal → XReal
  | nan => nan
  | inf a => inf (!a)
  | fin x => fin (-x)

/-- IEEE 754 subtraction on exact values. -/
noncomputable def sub (a b : XReal) : XReal := add a (neg b)

/-- IEEE 754 multiplication on exact values. -/
noncomputable def mul : XReal → XReal → XReal
  | nan, _ => nan
  | _, nan => nan
  | inf a, inf b => inf (a != b)
  | inf a, fin y => if y = 0 then nan else inf (a != decide (y < 0))
  | fin x, inf b => if x = 0 then nan else inf (decide (x < 0) != b)
  | fin x, fin y => fin (x * y)

/-- IEEE 754 division on exact values. -/
noncomputable def div : XReal → XReal → XReal
  | nan, _ => nan
  | _, nan => nan
  | inf _, inf _ => nan
  | inf a, fin y => inf (a != decide (y < 0))
  | fin _, inf _ => fin 0
  | fin x, fin y =>
    if y = 0 then (if x = 0 then nan else inf (decide (x < 0))) else fin (x / y)

/-- The function `math.Log` on exact values: `Log(+Inf) = +Inf`, `Log(0) = -Inf`,
`Log(x < 0) = NaN`, `Log(NaN) = NaN`. -/
noncomputable def log : XReal → XReal
  | nan => nan
  | inf true => nan
  | inf false => inf false
  | fin x => if x < 0 then nan else if x = 0 then inf true else fin (Real.log x)

/-- The comparison `==`: NaN is equal to nothing. -/
noncomputable def eq : XReal → XReal → Bool
  | fin x, fin y => decide (x = y)
  | inf a, inf b => a == b
  | _, _ => false

end XReal

/-- The exact reading of the `float64` operations; the rendering of `%.2f` is a parameter. -/
noncomputable def realOps (fmt2 : XReal → String) : Float64Ops XReal where
  lit q := .fin (q : ℝ)
  ofUint32 n := .fin (n : ℝ)
  add := XReal.add
  sub := XReal.sub
  mul := XReal.mul
  div := XReal.div
  log := XReal.log
  nan := .nan
  eq := XReal.eq
  fmt2 := fmt2

/-! ## Lemmas on the library model -/

theorem digit_not_space (c : Char) (h : c ∈ decimalDigits) : isSpace c = false := by
  simp only [decimalDigits, List.mem_cons, List.mem_singleton, List.not_mem_nil, or_false] at h
  rcases h with h | h | h | h | h | h | h | h | h | h <;> subst h <;> decide

theorem digit_range (c : Char) (h : c ∈ decimalDigits) :
    '0'.toNat ≤ c.toNat ∧ c.toNat ≤ '9'.toNat := by
  simp only [decimalDigits, List.mem_cons, List.mem_singleton, List.not_mem_nil, or_false] at h
  rcases h with h | h | h | h | h | h | h | h | h | h <;> subst h <;> decide

theorem digitChar_mem (k : Nat) (h : k < 10) :
    Nat.digitChar k ∈ decimalDigits ∧ (Nat.digitChar k).toNat - '0'.toNat = k := by
  interval_cases k <;> decide

theorem skipSpaceLoop_of_not_space (r : Char) (rest : List Char) (count : Nat)
    (h : isSpace r = false) :
    skipSpaceLoop (r :: rest) count = .ok { rs := r :: rest, count := count } := by
  have h1 : r ≠ '\r' := by rintro rfl; exact absurd h (by decide)
  have h2 : r ≠ '\n' := by rintro rfl; exact absurd h (by decide)
  simp [skipSpaceLoop, h, h1, h2]

theorem acceptLoop_append (digits ds rest : List Char) (count : Nat)
    (hds : ∀ d ∈ ds, d ∈ digits) (hlen : count + ds.length ≤ hugeWid)
    (hrest : ∀ c, rest.head? = some c → c ∉ digits) :
    acceptLoop digits (ds ++ rest) count = ds := by
  induction ds generalizing count with
  | nil =>
    cases rest with
    | nil => rfl
    | cons c cs =>
      have := hrest c rfl
      simp [acceptLoop, this]
  | cons d ds ih =>
    have hd : d ∈ digits := hds d (List.mem_cons_self _ _)
    have hc : ¬ hugeWid ≤ count := by
      simp only [List.length_cons] at hlen; omega
    simp only [List.cons_append, acceptLoop, hc, if_false, hd, if_true]
    show d :: acceptLoop digits (ds ++ rest) (count + 1) = d :: ds
    rw [ih (count + 1) (fun x hx => hds x (List.mem_cons_of_mem _ hx))
      (by simp only [List.length_cons] at hlen; omega)]

theorem foldl_step_ge (cs : List Char) (n : Nat) :
    n ≤ cs.foldl (fun n c => n * 10 + (c.toNat - '0'.toNat)) n := by
  induction cs generalizing n with
  | nil => exact Nat.le_refl _
  | cons c cs ih =>
    simp only [List.foldl_cons]
    exact Nat.le_trans (by omega) (ih _)

theorem parseUintLoop_digits (s0 cs : List Char) (n : Nat) (hn : n < 2 ^ 64)
    (hcs : ∀ c ∈ cs, c ∈ decimalDigits) :
    parseUintLoop s0 cs n =
      if cs.foldl (fun n c => n * 10 + (c.toNat - '0'.toNat)) n < 2 ^ 64 then
        .ok (cs.foldl (fun n c => n * 10 + (c.toNat - '0'.toNat)) n)
      else .error (.rangeError s0) := by
  induction cs generalizing n with
  | nil => rw [parseUintLoop, List.foldl_nil, if_pos hn]
  | cons c cs ih =>
    have hc := digit_range c (hcs c (List.mem_cons_self _ _))
    have hge := foldl_step_ge cs (n * 10 + (c.toNat - '0'.toNat))
    have hd : c.toNat - '0'.toNat ≤ 9 := by
      have : '9'.toNat = '0'.toNat + 9 := by decide
      omega
    rw [parseUintLoop, if_pos hc, List.foldl_cons]
    dsimp only
    by_cases hcut : (2 ^ 64 - 1) / 10 + 1 ≤ n
    · have : ¬ (cs.foldl (fun n c => n * 10 + (c.toNat - '0'.toNat))
          (n * 10 + (c.toNat - '0'.toNat)) < 2 ^ 64) := by
        norm_num at hcut ⊢; omega
      rw [if_pos hcut, if_neg this]
    · have hn10 : n * 10 < 2 ^ 64 := by norm_num at hcut ⊢; omega
      rw [if_neg hcut, Nat.mod_eq_of_lt hn10]
      by_cases hov : n * 10 + (c.toNat - '0'.toNat) < 2 ^ 64
      · rw [Nat.mod_eq_of_lt hov, if_neg (by omega)]
        exact ih _ hov (fun x hx => hcs x (List.mem_cons_of_mem _ hx))
      · have h1 : (n * 10 + (c.toNat - '0'.toNat)) % 2 ^ 64
            = n * 10 + (c.toNat - '0'.toNat) - 2 ^ 64 := by
          rw [Nat.mod_eq_sub_mod (by omega), Nat.mod_eq_of_lt (by omega)]
        rw [h1, if_pos (Or.inl (by omega)), if_neg (by omega)]

theorem hugeWid_pos : ¬ hugeWid ≤ 0 := by decide

theorem uint32_check (i : Nat) (hi : i < 2 ^ 64) :
    ((i * 2 ^ (64 - 32) % 2 ^ 64) / 2 ^ (64 - 32) ≠ i) ↔ ¬ i < 2 ^ 32 := by
  norm_num
  omega

theorem Sscanf_of_token (r : Char) (rest : List Char) (h : isSpace r = false) :
    Sscanf (r :: rest) =
      match acceptLoop decimalDigits (r :: rest) 0 with
      | [] => .error .expectedInteger
      | tok =>
        match ParseUint tok with
        | .error e => .error e
        | .ok i =>
          if (i * 2 ^ (64 - 32) % 2 ^ 64) / 2 ^ (64 - 32) ≠ i then .error (.overflow tok)
          else .ok (i % 2 ^ 32) := by
  simp only [Sscanf, ss.SkipSpace, skipSpaceLoop_of_not_space r rest 0 h, ss.scanUint,
    ss.notEOF, ss.getRune, ss.scanNumber, hugeWid_pos, if_false, bind, Except.bind]
  cases hacc : acceptLoop decimalDigits (r :: rest) 0 with
  | nil => rfl
  | cons a as =>
    dsimp only
    cases hp : ParseUint (a :: as) with
    | error e => rfl
    | ok i =>
      dsimp only
      by_cases hx : (i * 2 ^ (64 - 32) % 2 ^ 64) / 2 ^ (64 - 32) ≠ i
      · rw [if_pos hx, if_pos hx]
      · rw [if_neg hx, if_neg hx]

theorem Sscanf_not_digit (c : Char) (rest : List Char) (h : isSpace c = false)
    (hc : c ∉ decimalDigits) : Sscanf (c :: rest) = .error .expectedInteger := by
  rw [Sscanf_of_token c rest h]
  simp [acceptLoop, hc, hugeWid_pos]

theorem Sscanf_run (ds rest : List Char) (hne : ds ≠ []) (hds : ∀ d ∈ ds, d ∈ decimalDigits)
    (hlen : ds.length ≤ hugeWid) (hrest : ∀ c, rest.head? = some c → c ∉ decimalDigits) :
    Sscanf (ds ++ rest) =
      if decimalValue ds < 2 ^ 64 then
        if decimalValue ds < 2 ^ 32 then .ok (decimalValue ds) else .error (.overflow ds)
      else .error (.rangeError ds) := by
  obtain ⟨d, ds', rfl⟩ := List.exists_cons_of_ne_nil hne
  have hd : isSpace d = false := digit_not_space d (hds d (List.mem_cons_self _ _))
  have hacc := acceptLoop_append decimalDigits (d :: ds') rest 0 hds (by omega) hrest
  rw [List.cons_append] at hacc ⊢
  rw [Sscanf_of_token d _ hd, hacc]
  dsimp only
  have hp : ParseUint (d :: ds') = parseUintLoop (d :: ds') (d :: ds') 0 := rfl
  rw [hp, parseUintLoop_digits _ _ 0 (by norm_num) hds]
  show (match (if decimalValue (d :: ds') < 2 ^ 64 then Except.ok (decimalValue (d :: ds'))
      else Except.error (ScanError.rangeError (d :: ds'))) with
    | .error e => Except.error e
    | .ok i => if (i * 2 ^ (64 - 32) % 2 ^ 64) / 2 ^ (64 - 32) ≠ i
        then Except.error (ScanError.overflow (d :: ds')) else Except.ok (i % 2 ^ 32)) = _
  by_cases h64 : decimalValue (d :: ds') < 2 ^ 64
  · rw [if_pos h64, if_pos h64]
    dsimp only
    by_cases h32 : decimalValue (d :: ds') < 2 ^ 32
    · rw [if_neg (by rw [uint32_check _ h64]; exact not_not.mpr h32), if_pos h32,
        Nat.mod_eq_of_lt h32]
    · rw [if_pos ((uint32_check _ h64).mpr h32), if_neg h32]
  · rw [if_neg h64, if_neg h64]

theorem dropWhile_append_of_all (p : Char → Bool) (pre l : List Char)
    (h : ∀ c ∈ pre, p c = true) : (pre ++ l).dropWhile p = l.dropWhile p := by
  induction pre with
  | nil => rfl
  | cons a pre ih =>
    have ha := h a (List.mem_cons_self _ _)
    rw [List.cons_append, List.dropWhile_cons, if_pos ha]
    exact ih (fun c hc => h c (List.mem_cons_of_mem _ hc))

theorem dropWhile_of_head (p : Char → Bool) (l : List Char)
    (h : ∀ c, l.head? = some c → p c = false) : l.dropWhile p = l := by
  cases l with
  | nil => rfl
  | cons a l =>
    have := h a rfl
    simp [List.dropWhile_cons, this]

theorem TrimSpace_sandwich (pre t post : List Char) (hpre : ∀ c ∈ pre, isSpace c = true)
    (hpost : ∀ c ∈ post, isSpace c = true) (ht : ∀ c ∈ t, isSpace c = false) :
    TrimSpace (pre ++ t ++ post) = t := by
  unfold TrimSpace
  rw [List.append_assoc, dropWhile_append_of_all _ _ _ hpre]
  cases t with
  | nil =>
    have h1 : ([] ++ post).dropWhile isSpace = [] := by
      rw [List.nil_append, List.dropWhile_eq_nil_iff]; exact hpost
    rw [h1]; rfl
  | cons a t =>
    have e1 : (a :: t ++ post).dropWhile isSpace = a :: t ++ post := by
      apply dropWhile_of_head
      intro c hc
      simp only [List.cons_append, List.head?_cons, Option.some.injEq] at hc
      exact hc ▸ ht a (List.mem_cons_self _ _)
    have e2 : (post.reverse ++ (a :: t).reverse).dropWhile isSpace
        = ((a :: t).reverse).dropWhile isSpace :=
      dropWhile_append_of_all _ _ _ (fun c hc => hpost c (List.mem_reverse.mp hc))
    have e3 : ((a :: t).reverse).dropWhile isSpace = (a :: t).reverse := by
      apply dropWhile_of_head
      intro c hc
      have hmem : c ∈ (a :: t).reverse := List.mem_of_mem_head? hc
      exact ht c (List.mem_reverse.mp hmem)
    rw [e1, List.reverse_append, e2, e3, List.reverse_reverse]

theorem TrimSpace_head (l : List Char) (c : Char) (rest : List Char)
    (h : TrimSpace l = c :: rest) : isSpace c = false := by
  unfold TrimSpace at h
  have hp : ((l.dropWhile isSpace).reverse.dropWhile isSpace).reverse <+: l.dropWhile isSpace :=
    List.rdropWhile_prefix isSpace _
  rw [h] at hp
  obtain ⟨t, ht⟩ := hp
  have hne : l.dropWhile isSpace ≠ [] := by rw [← ht]; simp
  have h1 := List.head_dropWhile_not isSpace l hne
  have h2 : (l.dropWhile isSpace).head hne = c := by
    simp only [← ht, List.cons_append, List.head_cons]
  rw [h2] at h1
  exact h1

theorem toDigitsCore_acc (fuel n : Nat) (ds : List Char) :
    Nat.toDigitsCore 10 fuel n ds = Nat.toDigitsCore 10 fuel n [] ++ ds := by
  induction fuel generalizing n ds with
  | zero => rfl
  | succ fuel ih =>
    simp only [Nat.toDigitsCore]
    by_cases h : n / 10 = 0
    · simp [h]
    · rw [if_neg h, if_neg h, ih (n / 10) (_ :: ds), ih (n / 10) [_]]
      simp

theorem toDigitsCore_spec (fuel n : Nat) (h : n < fuel) :
    (∀ c ∈ Nat.toDigitsCore 10 fuel n [], c ∈ decimalDigits) ∧
      decimalValue (Nat.toDigitsCore 10 fuel n []) = n := by
  induction fuel generalizing n with
  | zero => omega
  | succ fuel ih =>
    have hd := digitChar_mem (n % 10) (Nat.mod_lt _ (by norm_num))
    simp only [Nat.toDigitsCore]
    by_cases h0 : n / 10 = 0
    · rw [if_pos h0]
      refine ⟨fun c hc => ?_, ?_⟩
      · rw [List.mem_singleton] at hc; rw [hc]; exact hd.1
      · simp only [decimalValue, List.foldl_cons, List.foldl_nil]
        rw [hd.2]; omega
    · rw [if_neg h0, toDigitsCore_acc]
      have ih' := ih (n / 10) (by omega)
      refine ⟨fun c hc => ?_, ?_⟩
      · rcases List.mem_append.mp hc with hc | hc
        · exact ih'.1 c hc
        · rw [List.mem_singleton] at hc; rw [hc]; exact hd.1
      · have := ih'.2
        simp only [decimalValue] at this ⊢
        rw [List.foldl_append, this]
        simp only [List.foldl_cons, List.foldl_nil]
        rw [hd.2]; omega

theorem decimalText_digits (n : Nat) : ∀ c ∈ decimalText n, c ∈ decimalDigits :=
  (toDigitsCore_spec (n + 1) n (Nat.lt_succ_self n)).1

theorem decimalValue_decimalText (n : Nat) : decimalValue (decimalText n) = n :=
  (toDigitsCore_spec (n + 1) n (Nat.lt_succ_self n)).2

theorem decimalText_ne_nil (n : Nat) : decimalText n ≠ [] := by
  unfold decimalText Nat.toDigits
  simp only [Nat.toDigitsCore]
  by_cases h0 : n / 10 = 0
  · simp [h0]
  · rw [if_neg h0, toDigitsCore_acc]; simp

theorem decimalText_length (n : Nat) (h : n < 2 ^ 32) : (decimalText n).length ≤ hugeWid := by
  have h1 := Nat.repr_length n 10 (by norm_num) (by norm_num at h ⊢; omega)
  have h2 : (Nat.repr n).length = (decimalText n).length := rfl
  rw [h2] at h1
  exact Nat.le_trans h1 (by decide)

/-! ## Lemmas on the loop -/

theorem published_append (xs ys : List Event) :
    published (xs ++ ys) = published xs ++ published ys := by
  induction xs with
  | nil => rfl
  | cons e xs ih => cases e <;> simp [published, ih]

theorem published_iteration {F : Type} (o : Float64Ops F) (t : Turn) :
    published (iteration o t) = (samples [t]).map (text o) := by
  obtain ⟨read, pe⟩ := t
  cases read with
  | error e => rfl
  | ok line =>
    simp only [iteration, samples]
    cases decode line <;> rfl

theorem samples_cons (t : Turn) (ts : List Turn) : samples (t :: ts) = samples [t] ++ samples ts := by
  obtain ⟨read, pe⟩ := t
  cases read with
  | error e => rfl
  | ok line =>
    simp only [samples]
    cases decode line <;> rfl

theorem published_loop {F : Type} (o : Float64Ops F) (turns : List Turn) :
    published (loop o turns) = (samples turns).map (text o) := by
  induction turns with
  | nil => rfl
  | cons t ts ih =>
    rw [loop, published_append, published_iteration, ih, samples_cons t ts, List.map_append]

theorem decode_of_run (line ds rest : List Char) (htrim : TrimSpace line = ds ++ rest)
    (hne : ds ≠ []) (hds : ∀ d ∈ ds, d ∈ decimalDigits) (hlen : ds.length ≤ hugeWid)
    (hrest : ∀ c, rest.head? = some c → c ∉ decimalDigits) :
    decode line =
      if decimalValue ds < 2 ^ 64 then
        if decimalValue ds < 2 ^ 32 then .sample (decimalValue ds)
        else .parseError (TrimSpace line) (.overflow ds)
      else .parseError (TrimSpace line) (.rangeError ds) := by
  have hnil : TrimSpace line ≠ [] := by
    rw [htrim]; intro h; exact hne (List.append_eq_nil.mp h).1
  simp only [decode, hnil, if_false]
  rw [htrim, Sscanf_run ds rest hne hds hlen hrest]
  by_cases h64 : decimalValue ds < 2 ^ 64
  · by_cases h32 : decimalValue ds < 2 ^ 32
    · simp only [h64, h32, if_true]
    · simp only [h64, h32, if_true, if_false]
  · simp only [h64, if_false]

/-! ## The claims -/

/-- C1: over every finite sequence of turns the loop publishes exactly the messages of the
samples of the lines read, in input order, and nothing for read errors, empty lines and lines
that fail to scan; the message of a sample is the formatted text computed from that sample
alone; a read error followed by a line that decodes to a sample yields exactly one message. -/
theorem loop_publishes_samples {F : Type} (o : Float64Ops F) (turns : List Turn) :
    published (loop o turns) = (samples turns).map (text o) ∧
    (∀ s : Nat, text o s =
      "ADC: " ++ toString s ++ ", Temp: " ++ o.fmt2 (computeTemperature o s) ++ "°C / " ++
        o.fmt2 (tempFahrenheit o (computeTemperature o s)) ++ "°F") ∧
    (∀ (e : String) (line : List Char) (s : Nat) (pe pe' : Option String),
      decode line = .sample s →
      published (loop o [⟨.error e, pe⟩, ⟨.ok line, pe'⟩]) = [text o s]) := by
  refine ⟨published_loop o turns, fun s => rfl, ?_⟩
  intro e line s pe pe' h
  rw [published_loop]
  simp [samples, h]

/-- C2 (counterexample): the trimmed line "12ab" is the digit run "12" followed by "ab", and
the decode step accepts it as the sample 12 instead of failing with a parse error. -/
theorem decode_12ab_is_sample :
    TrimSpace "12ab\n".toList = "12".toList ++ "ab".toList ∧
      decode "12ab\n".toList = .sample 12 := by
  decide

/-- C2 (amended): when the trimmed line is a non-empty run of decimal digits (at most `hugeWid`
runes, value below 2^32) followed by a character that is not a decimal digit, the decode step
succeeds with the value of the leading digit run, ignoring what follows it, and the loop
publishes the message of that sample. -/
theorem decode_accepts_leading_digits {F : Type} (o : Float64Ops F) (line ds : List Char)
    (c : Char) (rest : List Char) (pe : Option String)
    (htrim : TrimSpace line = ds ++ c :: rest) (hne : ds ≠ [])
    (hds : ∀ d ∈ ds, d ∈ decimalDigits) (hc : c ∉ decimalDigits)
    (hlen : ds.length ≤ hugeWid) (hval : decimalValue ds < 2 ^ 32) :
    decode line = .sample (decimalValue ds) ∧
      published (iteration o ⟨.ok line, pe⟩) = [text o (decimalValue ds)] := by
  have hdec : decode line = .sample (decimalValue ds) := by
    rw [decode_of_run line ds (c :: rest) htrim hne hds hlen
      (fun x hx => by
        simp only [List.head?_cons, Option.some.injEq] at hx
        exact hx ▸ hc)]
    rw [if_pos (Nat.lt_trans hval (by norm_num)), if_pos hval]
  refine ⟨hdec, ?_⟩
  rw [published_iteration]
  simp [samples, hdec]

/-- C2 (witness): the amended statement at the line "12ab", whose digit run is "12". -/
theorem decode_accepts_leading_digits_witness :
    decode "12ab\n".toList = .sample (decimalValue "12".toList) ∧
      published (iteration (realOps (fun _ => "")) ⟨.ok "12ab\n".toList, none⟩)
        = [text (realOps (fun _ => "")) (decimalValue "12".toList)] :=
  decode_accepts_leading_digits (realOps (fun _ => "")) "12ab\n".toList "12".toList 'a'
    "b".toList none (by decide) (by decide) (by decide) (by decide) (by decide) (by decide)

/-- C3 (counterexample): the line "70000" decodes to the sample 70000, above `ADCMax = 65535`. -/
theorem decode_70000_is_sample :
    decode "70000\n".toList = .sample 70000 ∧ ¬ (70000 ≤ 65535) := by
  decide

/-- C3 (amended): every sample the decode step produces lies in the `uint32` range
0 .. 4294967295, and a line whose trimmed text is a run of decimal digits (at most `hugeWid`
runes, followed by nothing or by a character that is not a digit) with value above that range
is rejected with a parse error, either the overflow error or the range error of `ParseUint`. -/
theorem decode_sample_range :
    (∀ (line : List Char) (s : Nat), decode line = .sample s → s ≤ 4294967295) ∧
    (∀ (line ds rest : List Char), TrimSpace line = ds ++ rest → ds ≠ [] →
      (∀ d ∈ ds, d ∈ decimalDigits) → (∀ c, rest.head? = some c → c ∉ decimalDigits) →
      ds.length ≤ hugeWid → 4294967295 < decimalValue ds →
      decode line = .parseError (TrimSpace line)
        (if decimalValue ds < 2 ^ 64 then .overflow ds else .rangeError ds)) := by
  constructor
  · intro line s h
    unfold decode at h
    dsimp only at h
    split at h
    · exact absurd h (by simp)
    · cases hS : Sscanf (TrimSpace line) with
      | error e => rw [hS] at h; exact absurd h (by simp)
      | ok v =>
        rw [hS] at h
        simp only [Decoded.sample.injEq] at h
        subst h
        unfold Sscanf at hS
        simp only [bind, Except.bind] at hS
        split at hS
        · exact absurd hS (by simp)
        · split at hS
          · exact absurd hS (by simp)
          · simp only [Except.ok.injEq] at hS
            omega
  · intro line ds rest htrim hne hds hrest hlen hval
    rw [decode_of_run line ds rest htrim hne hds hlen hrest]
    have h32 : ¬ decimalValue ds < 2 ^ 32 := by norm_num; omega
    by_cases h64 : decimalValue ds < 2 ^ 64
    · rw [if_pos h64, if_neg h32, if_pos h64]
    · rw [if_neg h64, if_neg h64]

/-- C3 (witness): the sample of "70000" is in the `uint32` range, and "4294967296" is rejected
with the overflow error. -/
theorem decode_sample_range_witness :
    (70000 ≤ 4294967295) ∧
      decode "4294967296\n".toList = .parseError (TrimSpace "4294967296\n".toList)
        (if decimalValue "4294967296".toList < 2 ^ 64 then .overflow "4294967296".toList
          else .rangeError "4294967296".toList) :=
  ⟨decode_sample_range.1 "70000\n".toList 70000 (by decide),
   decode_sample_range.2 "4294967296\n".toList "4294967296".toList [] (by decide) (by decide)
    (by decide) (by simp) (by decide) (by decide)⟩

/-- C4: the decimal text of an unsigned value below 2^32 (so of every value of the sample range
0 .. 65535), with any white space before and after it, decodes to exactly that value. -/
theorem decode_decimalText (n : Nat) (pre post : List Char) (hn : n < 2 ^ 32)
    (hpre : ∀ c ∈ pre, isSpace c = true) (hpost : ∀ c ∈ post, isSpace c = true) :
    decode (pre ++ decimalText n ++ post) = .sample n := by
  have htrim : TrimSpace (pre ++ decimalText n ++ post) = decimalText n ++ [] := by
    rw [List.append_nil]
    exact TrimSpace_sandwich pre _ post hpre hpost
      (fun c hc => digit_not_space c (decimalText_digits n c hc))
  rw [decode_of_run _ _ [] htrim (decimalText_ne_nil n) (decimalText_digits n)
    (decimalText_length n hn) (by simp), decimalValue_decimalText,
    if_pos (Nat.lt_trans hn (by norm_num)), if_pos hn]

/-- C4 (witness): `decode("1234") = 1234` and `decode(" 1234 \n") = 1234`. -/
theorem decode_decimalText_witness :
    decode ([] ++ decimalText 1234 ++ []) = .sample 1234 ∧
      decode (" ".toList ++ decimalText 1234 ++ " \n".toList) = .sample 1234 ∧
      " ".toList ++ decimalText 1234 ++ " \n".toList = " 1234 \n".toList :=
  ⟨decode_decimalText 1234 [] [] (by decide) (by decide) (by decide),
   decode_decimalText 1234 " ".toList " \n".toList (by decide) (by decide) (by decide),
   by decide⟩

/-- C5: a line of white space only takes the empty-line branch, which is not the parse-error
branch: the iteration logs the empty line and nothing else (no publish, no sleep), and the loop
goes on with the next read. -/
theorem whitespace_line_is_empty (line : List Char) (hline : ∀ c ∈ line, isSpace c = true) :
    decode line = .emptyLine ∧
      (∀ l e, Decoded.emptyLine ≠ Decoded.parseError l e) ∧
      ∀ {F : Type} (o : Float64Ops F) (pe : Option String) (ts : List Turn),
        loop o (⟨.ok line, pe⟩ :: ts) = Event.logEmptyLine :: loop o ts := by
  have htrim : TrimSpace line = [] := by
    have := TrimSpace_sandwich line [] [] hline (by simp) (by simp)
    simpa using this
  have hdec : decode line = .emptyLine := by simp [decode, htrim]
  refine ⟨hdec, ?_, ?_⟩
  · intro l e h
    exact Decoded.noConfusion h
  · intro F o pe ts
    simp [loop, iteration, hdec]

/-- C5 (witness): the lines "", "   " and "\n". -/
theorem whitespace_line_is_empty_witness :
    decode "".toList = .emptyLine ∧ decode "   ".toList = .emptyLine ∧
      decode "\n".toList = .emptyLine :=
  ⟨(whitespace_line_is_empty "".toList (by decide)).1,
   (whitespace_line_is_empty "   ".toList (by decide)).1,
   (whitespace_line_is_empty "\n".toList (by decide)).1⟩

/-- C6: when the trimmed line is not empty and does not begin with a decimal digit, the decode
step fails with the parse error "expected integer"; the iteration logs the trimmed text with
that error and nothing else, so nothing is published, and the loop goes on. -/
theorem nondigit_line_is_rejected (line : List Char) (c : Char) (rest : List Char)
    (htrim : TrimSpace line = c :: rest) (hc : c ∉ decimalDigits) :
    decode line = .parseError (c :: rest) .expectedInteger ∧
      ∀ {F : Type} (o : Float64Ops F) (pe : Option String) (ts : List Turn),
        loop o (⟨.ok line, pe⟩ :: ts)
          = Event.logParseError (c :: rest) .expectedInteger :: loop o ts ∧
        published (iteration o ⟨.ok line, pe⟩) = [] := by
  have hsp := TrimSpace_head line c rest htrim
  have hdec : decode line = .parseError (c :: rest) .expectedInteger := by
    simp [decode, htrim, Sscanf_not_digit c rest hsp hc]
  refine ⟨hdec, ?_⟩
  intro F o pe ts
  simp [loop, iteration, hdec, published]

/-- C6 (witness): the lines "abc" and "-5". -/
theorem nondigit_line_is_rejected_witness :
    decode "abc\n".toList = .parseError "abc".toList .expectedInteger ∧
      decode "-5\n".toList = .parseError "-5".toList .expectedInteger :=
  ⟨(nondigit_line_is_rejected "abc\n".toList 'a' "bc".toList (by decide) (by decide)).1,
   (nondigit_line_is_rejected "-5\n".toList '-' "5".toList (by decide) (by decide)).1⟩

/-! ## Lemmas on the exact reading of the arithmetic -/

theorem XReal.div_fin (x y : ℝ) (h : y ≠ 0) : XReal.div (.fin x) (.fin y) = .fin (x / y) := by
  simp [XReal.div, h]

theorem XReal.log_fin (x : ℝ) (h : 0 < x) : XReal.log (.fin x) = .fin (Real.log x) := by
  simp [XReal.log, not_lt.mpr h.le, h.ne']

theorem VCC_real : ((VCC : ℚ) : ℝ) = 5 := by norm_num [VCC]

theorem R_real : ((R : ℚ) : ℝ) = 1000 := by norm_num [R]

theorem RT0_real : ((RT0 : ℚ) : ℝ) = 1000 := by norm_num [RT0]

theorem B_real : ((B : ℚ) : ℝ) = 3977 := by norm_num [B]

theorem ADCMax_real : ((ADCMax : ℚ) : ℝ) = 65535 := by norm_num [ADCMax]

theorem inv_T0_real : (((1 / T0 : ℚ)) : ℝ) = 1 / 298.15 := by norm_num [T0]

theorem kelvin_offset_real : (((273.15 : ℚ)) : ℝ) = 273.15 := by norm_num

theorem log_ratio_bound (s : ℝ) (h1 : 1 ≤ s) (h2 : s ≤ 65534) :
    -12 < Real.log (s / (65535 - s)) := by
  have hpos : (0:ℝ) < 65535 - s := by linarith
  have h3 : (1:ℝ) / 2 ^ 16 ≤ s / (65535 - s) := by
    rw [div_le_div_iff₀ (by positivity) hpos]
    nlinarith
  have h4 : Real.log ((1:ℝ) / 2 ^ 16) ≤ Real.log (s / (65535 - s)) :=
    Real.log_le_log (by positivity) h3
  have h5 : Real.log ((1:ℝ) / 2 ^ 16) = -(16 * Real.log 2) := by
    rw [one_div, Real.log_inv, Real.log_pow]; norm_num
  have h6 := Real.log_two_lt_d9
  rw [h5] at h4
  linarith

theorem VRT_real (fmt2 : XReal → String) (s : Nat) :
    VRT (realOps fmt2) s = .fin (5 * (s : ℝ) / 65535) := by
  simp only [VRT, realOps, XReal.mul, VCC_real, ADCMax_real]
  rw [XReal.div_fin _ _ (by norm_num)]

theorem RT_real (fmt2 : XReal → String) (s : Nat) (h : (5 : ℝ) - 5 * (s : ℝ) / 65535 ≠ 0) :
    RT (realOps fmt2) s
      = .fin (5 * (s : ℝ) / 65535 * 1000 / (5 - 5 * (s : ℝ) / 65535)) := by
  rw [RT, VRT_real]
  simp only [realOps, XReal.mul, XReal.sub, XReal.neg, XReal.add, VCC_real, R_real]
  rw [← sub_eq_add_neg, XReal.div_fin _ _ h]

/-- C7: for every sample from 1 to 65534, read over exact real arithmetic, the thermistor
tension `v = VCC*s/ADCMax` lies strictly between 0 and `VCC`, the resistance
`r = v*R/(VCC - v)` is positive so the logarithm of `r/RT0` is defined, the denominator
`ln(r/RT0)/B + 1/T0` is positive, the Kelvin value `k` is positive, `computeTemperature`
returns the finite value `k - 273.15`, and the Fahrenheit value derived from it is that value
times 9/5 plus 32. -/
theorem computeTemperature_finite (fmt2 : XReal → String) (s : Nat) (h1 : 1 ≤ s)
    (h2 : s ≤ 65534) :
    ∃ v r k : ℝ,
      v = 5 * (s : ℝ) / 65535 ∧ r = v * 1000 / (5 - v) ∧
      k = 1 / (Real.log (r / 1000) / 3977 + 1 / 298.15) ∧
      VRT (realOps fmt2) s = .fin v ∧ 0 < v ∧ v < 5 ∧
      RT (realOps fmt2) s = .fin r ∧ 0 < r ∧
      ln (realOps fmt2) s = .fin (Real.log (r / 1000)) ∧
      0 < Real.log (r / 1000) / 3977 + 1 / 298.15 ∧
      TX (realOps fmt2) s = .fin k ∧ 0 < k ∧
      computeTemperature (realOps fmt2) s = .fin (k - 273.15) ∧
      tempFahrenheit (realOps fmt2) (computeTemperature (realOps fmt2) s)
        = .fin ((k - 273.15) * 9 / 5 + 32) := by
  have hs1 : (1:ℝ) ≤ s := by exact_mod_cast h1
  have hs2 : (s:ℝ) ≤ 65534 := by exact_mod_cast h2
  have hv0 : (0:ℝ) < 5 * (s : ℝ) / 65535 := by positivity
  have hv5 : 5 * (s : ℝ) / 65535 < 5 := by
    rw [div_lt_iff₀ (by norm_num)]; linarith
  have hr0 : (0:ℝ) < 5 * (s : ℝ) / 65535 * 1000 / (5 - 5 * (s : ℝ) / 65535) := by
    apply div_pos (by positivity) (by linarith)
  have hratio : 5 * (s : ℝ) / 65535 * 1000 / (5 - 5 * (s : ℝ) / 65535) / 1000
      = s / (65535 - s) := by
    have e1 : (65535:ℝ) - s ≠ 0 := by linarith
    have e2 : ((5:ℝ) - 5 * (s : ℝ) / 65535) * 1000 ≠ 0 := by
      apply mul_ne_zero _ (by norm_num)
      linarith
    rw [div_div, div_eq_div_iff e2 e1]
    ring
  have hlog := log_ratio_bound s hs1 hs2
  rw [← hratio] at hlog
  have hden : 0 < Real.log (5 * (s : ℝ) / 65535 * 1000 / (5 - 5 * (s : ℝ) / 65535) / 1000) / 3977
      + 1 / 298.15 := by
    have : (-12:ℝ) / 3977
        < Real.log (5 * (s : ℝ) / 65535 * 1000 / (5 - 5 * (s : ℝ) / 65535) / 1000) / 3977 :=
      div_lt_div_of_pos_right hlog (by norm_num)
    norm_num at this ⊢
    linarith
  have hRT := RT_real fmt2 s (by linarith)
  have hln : ln (realOps fmt2) s
      = .fin (Real.log (5 * (s : ℝ) / 65535 * 1000 / (5 - 5 * (s : ℝ) / 65535) / 1000)) := by
    rw [ln, hRT]
    simp only [realOps, RT0_real]
    rw [XReal.div_fin _ _ (by norm_num), XReal.log_fin _ (by positivity)]
  have hTX : TX (realOps fmt2) s
      = .fin (1 / (Real.log (5 * (s : ℝ) / 65535 * 1000 / (5 - 5 * (s : ℝ) / 65535) / 1000) / 3977
          + 1 / 298.15)) := by
    rw [TX, hln]
    simp only [realOps, B_real, inv_T0_real]
    rw [XReal.div_fin _ _ (by norm_num)]
    simp only [XReal.add]
    rw [XReal.div_fin _ _ hden.ne']
    norm_num
  have hC : computeTemperature (realOps fmt2) s
      = .fin (1 / (Real.log (5 * (s : ℝ) / 65535 * 1000 / (5 - 5 * (s : ℝ) / 65535) / 1000) / 3977
          + 1 / 298.15) - 273.15) := by
    rw [computeTemperature, hTX, VRT_real]
    have hne : XReal.eq (.fin (5 * (s : ℝ) / 65535)) (.fin ((0 : ℚ) : ℝ)) = false := by
      simp [XReal.eq, hv0.ne']
    simp only [realOps, hne, XReal.sub, XReal.neg, XReal.add, kelvin_offset_real]
    simp [sub_eq_add_neg]
  refine ⟨_, _, _, rfl, rfl, rfl, VRT_real fmt2 s, hv0, hv5, hRT, hr0, hln, hden, hTX,
    by positivity, hC, ?_⟩
  rw [hC]
  simp only [tempFahrenheit, realOps, XReal.mul, XReal.add]
  rw [XReal.div_fin _ _ (by norm_num)]
  simp only [XReal.add]
  norm_num

/-- C7 (witness): the sample 30000. -/
theorem computeTemperature_finite_witness :
    ∃ v r k : ℝ,
      v = 5 * ((30000 : Nat) : ℝ) / 65535 ∧ r = v * 1000 / (5 - v) ∧
      k = 1 / (Real.log (r / 1000) / 3977 + 1 / 298.15) ∧
      VRT (realOps (fun _ => "")) 30000 = .fin v ∧ 0 < v ∧ v < 5 ∧
      RT (realOps (fun _ => "")) 30000 = .fin r ∧ 0 < r ∧
      ln (realOps (fun _ => "")) 30000 = .fin (Real.log (r / 1000)) ∧
      0 < Real.log (r / 1000) / 3977 + 1 / 298.15 ∧
      TX (realOps (fun _ => "")) 30000 = .fin k ∧ 0 < k ∧
      computeTemperature (realOps (fun _ => "")) 30000 = .fin (k - 273.15) ∧
      tempFahrenheit (realOps (fun _ => "")) (computeTemperature (realOps (fun _ => "")) 30000)
        = .fin ((k - 273.15) * 9 / 5 + 32) :=
  computeTemperature_finite (fun _ => "") 30000 (by decide) (by decide)

/-- C8: for the sample 0 the tension `VRT` is zero, the test `VRT == 0` holds and
`computeTemperature` returns NaN from that branch (for any arithmetic in which the test holds,
whatever its division does); the Fahrenheit value derived from NaN is NaN; and the line "0" is
a normal sample, for which the iteration publishes the message formatted from the two NaN
values and prints it. -/
theorem computeTemperature_zero (fmt2 : XReal → String) :
    VRT (realOps fmt2) 0 = .fin 0 ∧
    (realOps fmt2).eq (VRT (realOps fmt2) 0) ((realOps fmt2).lit 0) = true ∧
    computeTemperature (realOps fmt2) 0 = .nan ∧
    (∀ {G : Type} (o : Float64Ops G), o.eq (VRT o 0) (o.lit 0) = true →
      computeTemperature o 0 = o.nan) ∧
    tempFahrenheit (realOps fmt2) .nan = .nan ∧
    decode "0\n".toList = .sample 0 ∧
    ∀ pe : Option String, iteration (realOps fmt2) ⟨.ok "0\n".toList, pe⟩ =
      [.publish topic 0 false
        ("ADC: 0, Temp: " ++ fmt2 .nan ++ "°C / " ++ fmt2 .nan ++ "°F"),
       .stdout ("Published to MQTT: " ++
        ("ADC: 0, Temp: " ++ fmt2 .nan ++ "°C / " ++ fmt2 .nan ++ "°F") ++ "\n")] := by
  have hV : VRT (realOps fmt2) 0 = .fin 0 := by
    rw [VRT_real]; norm_num
  have hE : (realOps fmt2).eq (VRT (realOps fmt2) 0) ((realOps fmt2).lit 0) = true := by
    rw [hV]; simp [realOps, XReal.eq]
  have hC : computeTemperature (realOps fmt2) 0 = .nan := by
    rw [computeTemperature, if_pos hE]; rfl
  have hF : tempFahrenheit (realOps fmt2) .nan = .nan := by
    simp [tempFahrenheit, realOps, XReal.mul, XReal.div, XReal.add]
  have hD : decode "0\n".toList = .sample 0 := by decide
  refine ⟨hV, hE, hC, ?_, hF, hD, ?_⟩
  · intro G o h
    rw [computeTemperature, if_pos h]
  · intro pe
    have ht : text (realOps fmt2) 0
        = "ADC: 0, Temp: " ++ fmt2 .nan ++ "°C / " ++ fmt2 .nan ++ "°F" := by
      rw [text, hC, hF]; rfl
    simp only [iteration, hD, ht]

/-- C9 (the code at the failing input): when the broker connection succeeds and opening the
serial port fails, `main` exits with status 1 from `log.Fatalf`; the deferred
`client.Disconnect(250)` is still pending and no disconnect appears in the trace. -/
theorem main_open_failure {F : Type} (o : Float64Ops F) (e : String) (turns : List Turn) :
    main o none ["rasp_temp"] (some e) turns =
      { trace := [.connect "tcp://localhost:1883" "go_mqtt_publisher",
                  .openPort "/dev/ttyACM0" 9600,
                  .fatal ("Serial port fail " ++ "/dev/ttyACM0" ++ ": " ++ e)],
        deferred := [.disconnect 250],
        exited := some 1 } ∧
    Event.disconnect 250 ∉ (main o none ["rasp_temp"] (some e) turns).trace := by
  constructor
  · rfl
  · simp [main, Fatalf]

/-- C10 (the code at the failing input): when the publish token completes with an error, the
iteration for the line "30000" is the publish call followed by the print of the
"Published to MQTT" line, with no log event; for every line the iteration is the same whether
or not the publish fails. -/
theorem publish_error_ignored {F : Type} (o : Float64Ops F) (e : String) :
    iteration o ⟨.ok "30000\n".toList, some e⟩ =
      [.publish topic 0 false (text o 30000),
       .stdout ("Published to MQTT: " ++ text o 30000 ++ "\n")] ∧
    ∀ (read : Except String (List Char)) (pe : Option String),
      iteration o ⟨read, pe⟩ = iteration o ⟨read, none⟩ := by
  have hD : decode "30000\n".toList = .sample 30000 := by decide
  refine ⟨?_, fun read pe => rfl⟩
  simp only [iteration, hD]

end Bridge
